import Mathlib

/-!
Verification development for the witsGWAS `pipeline_quickstart` scaffold.

The first part embeds the configuration data and the startup script of the
repository (`pipeline_quickstart.py`, `pipeline_quickstart_config.py`,
`pipeline_quickstart_stages_config.py`) as Lean definitions.  The second part
models, from the design specification, the pipeline-executor components that
the repository itself does not implement (Stage Registry validation, the
Staleness Resolver and the Run Controller), and proves the stated properties
about them.
-/

namespace WitsGWAS

/-- A Python value as it occurs in the configuration dictionaries of this
repository: strings, integers, booleans, `None`, and lists of strings (the
only list values that occur are lists of strings). -/
inductive PyValue where
  | pystr (s : String)
  | pyint (n : Int)
  | pybool (b : Bool)
  | pynone
  | pystrlist (l : List String)
deriving DecidableEq, Repr

/-- Lookup in a Python dict modelled as an association list (first match). -/
def pyLookup {α : Type} : List (String × α) → String → Option α
  | [], _ => none
  | p :: rest, k => if p.1 = k then some p.2 else pyLookup rest k

/-- Model of Python `os.path.join` on two components: an absolute second
component replaces the first; otherwise the components are joined with a
single `/` (none added after an empty or slash-terminated first component). -/
def pyJoin (a b : String) : String :=
  if b.data.head? = some '/' then b
  else if a = "" then b
  else if a.data.getLast? = some '/' then a ++ b
  else a ++ "/" ++ b

/-- `working_files` from `src/version1/pipeline_quickstart_config.py`: the
shipped dictionary is empty. -/
def working_files : List (String × String) := []

/-- `pipeline` from `src/version1/pipeline_quickstart_config.py`.  Its
`logDir` entry is built from the value `SC.CURRENT_PROJECT_DIR` has when the
configuration module is evaluated, so the embedding takes that directory as a
parameter. -/
def pipeline (currentProjectDir : String) : List (String × PyValue) :=
  [ ("logDir", .pystr (pyJoin currentProjectDir "log_quickstart")),
    ("logFile", .pystr "pipeline_quickstart.log"),
    ("style", .pystr "print"),
    ("procs", .pyint 30),
    ("verbose", .pyint 1),
    ("end", .pystrlist ["quickstart_end_task"]),
    ("force", .pystrlist []),
    ("rebuild", .pystr "fromstart"),
    ("restrict_samples", .pybool false),
    ("allowed_samples", .pystrlist []) ]

/-- `stageDefaults` from `src/pipeline_quickstart_stages_config.py`. -/
def stageDefaults : List (String × PyValue) :=
  [ ("distributed", .pybool true),
    ("queue", .pystr "WitsLong"),
    ("walltime", .pystr "6:00:00"),
    ("memInGB", .pyint 16),
    ("name", .pynone),
    ("modules", .pystrlist ["gwaspipe"]) ]

/-- `stages` from `src/pipeline_quickstart_stages_config.py`: three tasks,
each with only an empty `command`. -/
def stages : List (String × List (String × PyValue)) :=
  [ ("task1", [("command", .pystr "")]),
    ("task2", [("command", .pystr "")]),
    ("task3", [("command", .pystr "")]) ]

/-- The keys of an association list (the key set of a Python dict). -/
def keysOf {α : Type} (d : List (String × α)) : List String := d.map Prod.fst

/-- The option value a stage actually gets: its own entry if declared,
otherwise the `stageDefaults` entry (per the Rubra convention documented in
`pipeline_quickstart_stages_config.py`, per-stage options override defaults). -/
def effectiveStageOption (stage : List (String × PyValue)) (key : String) :
    Option PyValue :=
  match pyLookup stage key with
  | some v => some v
  | none => pyLookup stageDefaults key

/-- A calendar time as consumed by `datetime.datetime.now().strftime(...)`.
Fields are assumed to lie in calendar ranges (in particular a four-digit
year); the rendering below fixes the four-digit year case. -/
structure DateTime where
  year : Nat
  month : Nat
  day : Nat
  hour : Nat
  minute : Nat
  second : Nat
deriving DecidableEq, Repr

/-- The decimal digit character for `n % 10`. -/
def digitChar (n : Nat) : Char := Char.ofNat (48 + n % 10)

/-- Two-digit zero-padded rendering (`%m`, `%d`, `%H`, `%M`, `%S`). -/
def pad2Chars (n : Nat) : List Char := [digitChar (n / 10), digitChar n]

/-- Four-digit zero-padded rendering (`%Y` for calendar years). -/
def pad4Chars (n : Nat) : List Char :=
  [digitChar (n / 1000), digitChar (n / 100), digitChar (n / 10), digitChar n]

/-- The timestamp `datetime.datetime.now().strftime('%Y-%m-%d_%H-%M-%S')`
appearing in `pipeline_quickstart.py`. -/
def strftimeQuickstart (t : DateTime) : String :=
  String.mk (pad4Chars t.year ++ ['-'] ++ pad2Chars t.month ++ ['-'] ++
    pad2Chars t.day ++ ['_'] ++ pad2Chars t.hour ++ ['-'] ++
    pad2Chars t.minute ++ ['-'] ++ pad2Chars t.second)

/-- `SC.CURRENT_PROJECT_DIR` as assigned by `pipeline_quickstart.py`:
`os.path.join(SC.witsGWAS_PROJECTS_DIR, working_files['projectname'])`
followed by `'-pipeline_quickstart-'`, the strftime timestamp and `'/'`. -/
def CURRENT_PROJECT_DIR (projectsDir projectname : String) (t : DateTime) :
    String :=
  pyJoin projectsDir projectname ++ "-pipeline_quickstart-" ++
    strftimeQuickstart t ++ "/"

/-- Modelled from the spec: recognizer for an ISO 8601 combined date-time
timestamp in the extended format `YYYY-MM-DDTHH:MM:SS` (date and time
separated by `T`, time components separated by `:`).  Used to interpret the
phrase "ISO8601 timestamp" in the specification's filesystem-layout sentence,
which no source file implements. -/
def isISO8601Extended (s : String) : Bool :=
  match s.data with
  | [y1, y2, y3, y4, u1, o1, o2, u2, d1, d2, sep, h1, h2, c1, m1, m2, c2,
     s1, s2] =>
    y1.isDigit && y2.isDigit && y3.isDigit && y4.isDigit && (u1 == '-') &&
    o1.isDigit && o2.isDigit && (u2 == '-') && d1.isDigit && d2.isDigit &&
    (sep == 'T') && h1.isDigit && h2.isDigit && (c1 == ':') && m1.isDigit &&
    m2.isDigit && (c2 == ':') && s1.isDigit && s2.isDigit
  | _ => false

/-- Modelled from the spec: recognizer for an ISO 8601 combined date-time
timestamp in the basic format `YYYYMMDDTHHMMSS`. -/
def isISO8601Basic (s : String) : Bool :=
  match s.data with
  | [y1, y2, y3, y4, o1, o2, d1, d2, sep, h1, h2, m1, m2, s1, s2] =>
    y1.isDigit && y2.isDigit && y3.isDigit && y4.isDigit && o1.isDigit &&
    o2.isDigit && d1.isDigit && d2.isDigit && (sep == 'T') && h1.isDigit &&
    h2.isDigit && m1.isDigit && m2.isDigit && s1.isDigit && s2.isDigit
  | _ => false

/-- Modelled from the spec: an ISO 8601 combined date-time timestamp, in
either the extended or the basic format. -/
def isISO8601DateTime (s : String) : Bool :=
  isISO8601Extended s || isISO8601Basic s

/-- The shape actually produced by `strftime('%Y-%m-%d_%H-%M-%S')`:
`YYYY-MM-DD_HH-MM-SS` (underscore between date and time, hyphens inside the
time). -/
def timestampShapeQuickstart (s : String) : Bool :=
  match s.data with
  | [y1, y2, y3, y4, u1, o1, o2, u2, d1, d2, sep, h1, h2, c1, m1, m2, c2,
     s1, s2] =>
    y1.isDigit && y2.isDigit && y3.isDigit && y4.isDigit && (u1 == '-') &&
    o1.isDigit && o2.isDigit && (u2 == '-') && d1.isDigit && d2.isDigit &&
    (sep == '_') && h1.isDigit && h2.isDigit && (c1 == '-') && m1.isDigit &&
    m2.isDigit && (c2 == '-') && s1.isDigit && s2.isDigit
  | _ => false

/-- A filesystem side effect performed by the startup section of
`pipeline_quickstart.py`. -/
inductive Effect where
  | createDir (path : String)
  | chdir (path : String)
  | createEmptyfile (path : String)
deriving DecidableEq, Repr

/-- Indexing a Python dict (`d[k]`): the value on a present key, a `KeyError`
carrying the key otherwise. -/
def pyDictGet (d : List (String × String)) (k : String) :
    Except String String :=
  match pyLookup d k with
  | some v => .ok v
  | none => .error k

/-- The startup section of `pipeline_quickstart.py`, in source order: index
`working_files['projectname']`, build `SC.CURRENT_PROJECT_DIR` and create it,
`os.chdir` into it, build and create the plots directory, index
`working_files['projectauthor']` (for the banner print), and create the
`pipeline_quickstart.Start` flag file.  Returns the filesystem effects
performed and the key of the `KeyError` that aborted the run, if any. -/
def startup (projectsDir scriptsRoot : String)
    (wf : List (String × String)) (t : DateTime) :
    List Effect × Option String :=
  match pyDictGet wf "projectname" with
  | .error k => ([], some k)
  | .ok projectname =>
    let dir := CURRENT_PROJECT_DIR projectsDir projectname t
    let plots := pyJoin (pyJoin scriptsRoot dir) "pipeline_quickstart_plots"
      ++ "/"
    match pyDictGet wf "projectauthor" with
    | .error k => ([.createDir dir, .chdir dir, .createDir plots], some k)
    | .ok _ =>
      ([.createDir dir, .chdir dir, .createDir plots,
        .createEmptyfile "pipeline_quickstart.Start"], none)

/-- Modelled from the spec (§3 Data Model): a stage definition with a command
template, declared input and output paths, and upstream dependencies by name.
The repository's `stages` dict declares only commands; the executor
components that consume stage definitions (Stage Registry validation, the
Staleness Resolver, the Run Controller) are absent from the source and are
modelled from the spec below.  Resource-request fields are omitted: no
modelled component consults them. -/
structure StageDef where
  command : String
  inputs : List String
  outputs : List String
  deps : List String
deriving DecidableEq, Repr

/-- Modelled from the spec (§4.1): a Stage Registry, a mapping from stage
name to stage definition. -/
abbrev Registry := List (String × StageDef)

/-- The names defined by a registry. -/
def stageNames (reg : Registry) : List String := reg.map Prod.fst

/-- Lookup of a stage definition by name (first match). -/
def findStage : Registry → String → Option StageDef
  | [], _ => none
  | p :: rest, n => if p.1 = n then some p.2 else findStage rest n

/-- The declared dependencies of a name (empty for undefined names). -/
def succs (reg : Registry) (a : String) : List String :=
  match findStage reg a with
  | some s => s.deps
  | none => []

/-- The dependency edge relation: `a` declares a dependency on `b`. -/
def EdgeP (reg : Registry) (a b : String) : Prop := b ∈ succs reg a

instance (reg : Registry) (a b : String) : Decidable (EdgeP reg a b) :=
  inferInstanceAs (Decidable (b ∈ succs reg a))

/-- Names reachable from `a` along 1 to `n` dependency edges. -/
def reachN (reg : Registry) : Nat → String → List String
  | 0, _ => []
  | n + 1, a => succs reg a ++ ((succs reg a).map (reachN reg n)).flatten

/-- Modelled from the spec (§3 invariant): a nonempty dependency walk from
`a` back to `a`, i.e. `a` depends directly or transitively on itself. -/
def SelfWalkFrom (reg : Registry) (a : String) : Prop :=
  ∃ l : List String, l ≠ [] ∧ List.Chain (EdgeP reg) a l ∧ l.getLast? = some a

/-- Modelled from the spec: the dependency graph contains a cycle. -/
def HasCycle (reg : Registry) : Prop := ∃ a, SelfWalkFrom reg a

/-- Modelled from the spec: the dependency graph is acyclic. -/
def Acyclic (reg : Registry) : Prop := ¬ HasCycle reg

/-- Modelled from the spec (§7): the fatal configuration-time error family:
an unknown dependency reference, or a cyclic dependency graph reported by a
stage on the cycle. -/
inductive ConfigurationError where
  | unknownDep (stage dep : String)
  | cyclic (stage : String)
deriving DecidableEq, Repr

/-- The first registry entry that lies on a dependency cycle, detected by
bounded reachability (a self-reaching name within `reg.length` edges). -/
def cycleEntry (reg : Registry) : Option (String × StageDef) :=
  reg.find? fun p => decide (p.1 ∈ reachN reg reg.length p.1)

/-- The first (stage, dependency) pair whose dependency name is undefined. -/
def missingDepAux (names : List String) : Registry → Option (String × String)
  | [] => none
  | p :: rest =>
    match p.2.deps.find? (fun d => !(decide (d ∈ names))) with
    | some d => some (p.1, d)
    | none => missingDepAux names rest

/-- The first undefined dependency reference of a registry. -/
def missingDep (reg : Registry) : Option (String × String) :=
  missingDepAux (stageNames reg) reg

/-- Modelled from the spec (§4.1): Stage Registry validation.  A cyclic
dependency graph fails with `ConfigurationError.cyclic` naming a stage on
the cycle; an undefined dependency name fails with
`ConfigurationError.unknownDep`; otherwise validation succeeds. -/
def validate (reg : Registry) : Except ConfigurationError Unit :=
  match cycleEntry reg with
  | some p => .error (.cyclic p.1)
  | none =>
    match missingDep reg with
    | some sd => .error (.unknownDep sd.1 sd.2)
    | none => .ok ()

/-- Modelled from the spec (§3): the state the Staleness Resolver consults:
file modification times, the per-stage Checkpoint Record store, and the
current clock (advanced on every write, so new writes are newest). -/
structure FS where
  mtime : String → Option Nat
  checkpoint : String → Option Nat
  clock : Nat

/-- Modelled from the spec (§4.2): all declared outputs exist and each is at
least as new as every declared input (non-strict, per the spec's tie-break
rule). -/
def outputsFresh (fs : FS) (s : StageDef) : Bool :=
  s.outputs.all fun o =>
    match fs.mtime o with
    | none => false
    | some tOut =>
      s.inputs.all fun i =>
        match fs.mtime i with
        | none => true
        | some tIn => tIn ≤ tOut

/-- Modelled from the spec (§4.2): a successful checkpoint exists and every
declared output is at least as new as it (non-strict, in the spirit of the
spec's tie-break rule for coarse time resolution). -/
def outputsAfterCheckpoint (fs : FS) (name : String) (s : StageDef) : Bool :=
  match fs.checkpoint name with
  | none => false
  | some tc =>
    s.outputs.all fun o =>
      match fs.mtime o with
      | none => false
      | some tOut => tc ≤ tOut

/-- Modelled from the spec (§4.2): a stage is up to date when it has at
least one declared output (a stage with no declared outputs is always
stale), all outputs exist and are newer than all inputs, and all outputs are
newer than the stage's last successful checkpoint. -/
def upToDate (fs : FS) (name : String) (s : StageDef) : Bool :=
  !s.outputs.isEmpty && outputsFresh fs s && outputsAfterCheckpoint fs name s

/-- Modelled from the spec (§4.2): the Staleness Resolver: a stage is stale
when its name is in the forced-rerun set, or when it is not up to date. -/
def isStale (force : List String) (fs : FS) (name : String) (s : StageDef) :
    Bool :=
  decide (name ∈ force) || !upToDate fs name s

/-- Modelled from the spec (§4.4): the per-stage states of the Run
Controller state machine. -/
inductive StageStatus where
  | pending
  | running
  | succeeded
  | failed
  | skipped
deriving DecidableEq, Repr

/-- The terminal states that release dependents (`SUCCEEDED`/`SKIPPED`). -/
def statusTerminalOK : StageStatus → Bool
  | .succeeded => true
  | .skipped => true
  | _ => false

/-- All declared dependencies have reached `SUCCEEDED` or `SKIPPED`. -/
def depsOK (status : String → StageStatus) (s : StageDef) : Bool :=
  s.deps.all fun d => statusTerminalOK (status d)

/-- Modelled from the spec (§4.4): the Run Controller's state: the
filesystem/checkpoint store, the per-stage status map, and the log of stages
that entered `RUNNING`, in order. -/
structure RunState where
  fs : FS
  status : String → StageStatus
  ran : List String

/-- The filesystem after writing a stage's declared outputs at the current
clock time. -/
def writeOutputs (fs : FS) (outs : List String) : String → Option Nat :=
  fun f => if f ∈ outs then some fs.clock else fs.mtime f

/-- Modelled from the spec (§4.3): the Execution Dispatcher: a dispatched
stage that succeeds writes its outputs and its Checkpoint Record at the
current clock time and becomes `SUCCEEDED`; a failing one becomes `FAILED`.
Either way the stage entered `RUNNING` and is logged in `ran`. -/
def execStage (dispatch : String → Bool) (st : RunState) (n : String)
    (s : StageDef) : RunState :=
  if dispatch n then
    { fs := { mtime := writeOutputs st.fs s.outputs,
              checkpoint := fun m => if m = n then some st.fs.clock
                else st.fs.checkpoint m,
              clock := st.fs.clock + 1 },
      status := fun m => if m = n then .succeeded else st.status m,
      ran := st.ran ++ [n] }
  else
    { fs := st.fs,
      status := fun m => if m = n then .failed else st.status m,
      ran := st.ran ++ [n] }

/-- Modelled from the spec (§4.4): one Run Controller step on one stage: if
some dependency is not terminal-successful the stage stays `PENDING`;
otherwise a stale stage runs (`PENDING → RUNNING → SUCCEEDED/FAILED`) and an
up-to-date one is skipped (`PENDING → SKIPPED`). -/
def stepStage (force : List String) (dispatch : String → Bool)
    (st : RunState) (p : String × StageDef) : RunState :=
  if depsOK st.status p.2 then
    if isStale force st.fs p.1 p.2 then execStage dispatch st p.1 p.2
    else { st with status := fun m => if m = p.1 then .skipped
      else st.status m }
  else st

/-- Modelled from the spec (§4.4): the Run Controller as a deterministic
sequential schedule: process the registry entries in their list order (the
intended order is a topological one, cf. §4.1 "exposes topological ordering
on demand"). -/
def runController (force : List String) (dispatch : String → Bool)
    (reg : Registry) (st : RunState) : RunState :=
  reg.foldl (stepStage force dispatch) st

/-- The initial controller state over a filesystem: all stages `PENDING`,
nothing has run. -/
def initState (fs : FS) : RunState :=
  { fs := fs, status := fun _ => .pending, ran := [] }

/-- One full controller invocation from a filesystem. -/
def runOnce (reg : Registry) (force : List String)
    (dispatch : String → Bool) (fs : FS) : RunState :=
  runController force dispatch reg (initState fs)

/-- Two controller invocations in succession with no external change in
between: the second starts from the filesystem state the first left behind. -/
def secondRun (reg : Registry) (force : List String)
    (dispatch : String → Bool) (fs : FS) : RunState :=
  runController force dispatch reg (initState (runOnce reg force dispatch fs).fs)

/-- Modelled from the spec (§7): a pipeline invocation validates its
registry first; a configuration error aborts before any execution, so the
list of executed stages is empty. -/
def runPipeline (reg : Registry) (force : List String)
    (dispatch : String → Bool) (fs : FS) : List String :=
  match validate reg with
  | .error _ => []
  | .ok _ => (runOnce reg force dispatch fs).ran

/-- The registry list is in a topological order: every stage's dependencies
occur among the already-seen names. -/
def topoOK : List String → Registry → Bool
  | _, [] => true
  | seen, p :: rest =>
    (p.2.deps.all fun d => decide (d ∈ seen)) && topoOK (p.1 :: seen) rest

/-- Every declared input of a stage is either an output of one of its
declared dependencies, or external: an output of no stage at all. -/
def InputsCovered (reg : Registry) : Prop :=
  ∀ p ∈ reg, ∀ f ∈ p.2.inputs,
    (∃ q ∈ reg, q.1 ∈ p.2.deps ∧ f ∈ q.2.outputs) ∨
      (∀ q ∈ reg, f ∉ q.2.outputs)

/-- Distinct registry entries declare disjoint output sets (per-stage write
isolation). -/
def OutputsDisjoint (reg : Registry) : Prop :=
  List.Pairwise (fun p q : String × StageDef =>
    ∀ o ∈ p.2.outputs, o ∉ q.2.outputs) reg

instance (reg : Registry) : Decidable (OutputsDisjoint reg) :=
  inferInstanceAs (Decidable (List.Pairwise (fun p q : String × StageDef =>
    ∀ o ∈ p.2.outputs, o ∉ q.2.outputs) reg))

instance (reg : Registry) : Decidable (InputsCovered reg) :=
  inferInstanceAs (Decidable (∀ p ∈ reg, ∀ f ∈ p.2.inputs,
    (∃ q ∈ reg, q.1 ∈ p.2.deps ∧ f ∈ q.2.outputs) ∨
      (∀ q ∈ reg, f ∉ q.2.outputs)))

/-- The spec's §8 concrete scenario: a linear chain
`task1 → task2 → task3`, each stage with one output file, each later stage
consuming its predecessor's output. -/
def quickstartChain : Registry :=
  [ ("task1", ⟨"", [], ["f1"], []⟩),
    ("task2", ⟨"", ["f1"], ["f2"], ["task1"]⟩),
    ("task3", ⟨"", ["f2"], ["f3"], ["task2"]⟩) ]

/-- Modelled from the spec (§4.4, §5): the Run Controller's nondeterministic
step relation.  A `PENDING` stage may start `RUNNING` when its dependencies
are all `SUCCEEDED`/`SKIPPED` and it is stale, or become `SKIPPED` when they
are and it is up to date; a `RUNNING` stage may finish `SUCCEEDED` (writing
outputs and its Checkpoint Record) or `FAILED`. -/
inductive Step (reg : Registry) (force : List String) :
    RunState → RunState → Prop where
  | start {st : RunState} (n : String) (s : StageDef) :
      findStage reg n = some s → st.status n = .pending →
      depsOK st.status s = true → isStale force st.fs n s = true →
      Step reg force st
        { st with status := fun m => if m = n then .running else st.status m,
                  ran := st.ran ++ [n] }
  | skip {st : RunState} (n : String) (s : StageDef) :
      findStage reg n = some s → st.status n = .pending →
      depsOK st.status s = true → isStale force st.fs n s = false →
      Step reg force st
        { st with status := fun m => if m = n then .skipped else st.status m }
  | finishOk {st : RunState} (n : String) (s : StageDef) :
      findStage reg n = some s → st.status n = .running →
      Step reg force st
        { fs := { mtime := writeOutputs st.fs s.outputs,
                  checkpoint := fun m => if m = n then some st.fs.clock
                    else st.fs.checkpoint m,
                  clock := st.fs.clock + 1 },
          status := fun m => if m = n then .succeeded else st.status m,
          ran := st.ran }
  | finishFail {st : RunState} (n : String) (s : StageDef) :
      findStage reg n = some s → st.status n = .running →
      Step reg force st
        { st with status := fun m => if m = n then .failed else st.status m }

/-- A status witnessing that the stage has begun running at some point
(`RUNNING` now, or already finished). -/
def startedStatus : StageStatus → Bool
  | .running => true
  | .succeeded => true
  | .failed => true
  | _ => false

/-- The never-begins-early invariant: every stage that has begun running has
all its declared dependencies in a terminal `SUCCEEDED`/`SKIPPED` state. -/
def StartedOK (reg : Registry) (st : RunState) : Prop :=
  ∀ n s, findStage reg n = some s → startedStatus (st.status n) = true →
    ∀ d ∈ s.deps, st.status d = .succeeded ∨ st.status d = .skipped

/-- C2: the shipped `working_files` dict is empty, so every startup of
`pipeline_quickstart.py` stops at the `working_files['projectname']` lookup
with a `KeyError` on that key, before any directory is created, any flag file
is written, or any stage runs (the effect list is empty). -/
theorem C2_startup_fails_on_empty_working_files
    (projectsDir scriptsRoot : String) (t : DateTime) :
    working_files = ([] : List (String × String))
    ∧ startup projectsDir scriptsRoot working_files t = ([], some "projectname") := by
  exact ⟨rfl, rfl⟩

/-- C9: in the shipped configuration the `end` list of the `pipeline`
dictionary is exactly `['quickstart_end_task']`, the stage registry keys are
exactly `task1, task2, task3`, and no end target names a defined stage. -/
theorem C9_end_targets_undefined (currentProjectDir : String) :
    pyLookup (pipeline currentProjectDir) "end"
        = some (.pystrlist ["quickstart_end_task"])
    ∧ keysOf stages = ["task1", "task2", "task3"]
    ∧ (["quickstart_end_task"].all fun e => !((keysOf stages).contains e)) = true := by
  exact ⟨rfl, rfl, by decide⟩

/-- C10: every entry of the shipped `stages` registry has a `command` key
whose value is the empty string, no per-stage entry declares any of the
default option names, and consequently every stage's effective value for each
default option is the `stageDefaults` value (`distributed = True`,
`queue = 'WitsLong'`, `walltime = '6:00:00'`, `memInGB = 16`,
`modules = ['gwaspipe']`). -/
theorem C10_stages_inherit_defaults :
    (stages.all fun p => decide (pyLookup p.2 "command" = some (.pystr ""))) = true
    ∧ (stages.all fun p =>
        (keysOf stageDefaults).all fun k => (pyLookup p.2 k).isNone) = true
    ∧ (stages.all fun p =>
        decide (effectiveStageOption p.2 "distributed" = some (.pybool true))
        && decide (effectiveStageOption p.2 "queue" = some (.pystr "WitsLong"))
        && decide (effectiveStageOption p.2 "walltime" = some (.pystr "6:00:00"))
        && decide (effectiveStageOption p.2 "memInGB" = some (.pyint 16))
        && decide (effectiveStageOption p.2 "modules"
            = some (.pystrlist ["gwaspipe"]))) = true := by
  exact ⟨by decide, by decide, by decide⟩

/-- C4, counterexample: the shipped `pipeline` dictionary supplies no value
under the option name `verbosity`; the key it uses is `verbose`. -/
theorem C4_counterexample :
    pyLookup (pipeline "/projects/p") "verbosity" = none
    ∧ "verbosity" ∉ keysOf (pipeline "/projects/p")
    ∧ "verbose" ∈ keysOf (pipeline "/projects/p") := by
  exact ⟨rfl, by decide, by decide⟩

/-- C4, amended: the shipped `pipeline` dictionary supplies values under
exactly the names `logDir`, `logFile`, `style`, `procs`, `verbose` (not
`verbosity`), `end`, `force`, `rebuild`, `restrict_samples`,
`allowed_samples`, and the supplied values satisfy the documented
constraints: `style ∈ {flowchart, print, run, touchfiles}`, `procs` an
integer `≥ 1`, the verbosity value (under key `verbose`) in `{0, 1, 2}`,
`end` and `force` lists of stage names, `rebuild ∈ {fromstart, fromend}`,
`restrict_samples` a boolean, `allowed_samples` a list. -/
theorem C4_amended (currentProjectDir : String) :
    keysOf (pipeline currentProjectDir)
      = ["logDir", "logFile", "style", "procs", "verbose", "end", "force",
         "rebuild", "restrict_samples", "allowed_samples"]
    ∧ pyLookup (pipeline currentProjectDir) "logDir"
        = some (.pystr (pyJoin currentProjectDir "log_quickstart"))
    ∧ pyLookup (pipeline currentProjectDir) "logFile"
        = some (.pystr "pipeline_quickstart.log")
    ∧ pyLookup (pipeline currentProjectDir) "style" = some (.pystr "print")
    ∧ "print" ∈ ["flowchart", "print", "run", "touchfiles"]
    ∧ pyLookup (pipeline currentProjectDir) "procs" = some (.pyint 30)
    ∧ (1 : Int) ≤ 30
    ∧ pyLookup (pipeline currentProjectDir) "verbose" = some (.pyint 1)
    ∧ (1 : Int) ∈ [(0 : Int), 1, 2]
    ∧ pyLookup (pipeline currentProjectDir) "end"
        = some (.pystrlist ["quickstart_end_task"])
    ∧ pyLookup (pipeline currentProjectDir) "force" = some (.pystrlist [])
    ∧ pyLookup (pipeline currentProjectDir) "rebuild" = some (.pystr "fromstart")
    ∧ "fromstart" ∈ ["fromstart", "fromend"]
    ∧ pyLookup (pipeline currentProjectDir) "restrict_samples"
        = some (.pybool false)
    ∧ pyLookup (pipeline currentProjectDir) "allowed_samples"
        = some (.pystrlist []) := by
  refine ⟨rfl, rfl, rfl, rfl, by decide, rfl, by decide, rfl, by decide, rfl,
    rfl, rfl, by decide, rfl, rfl⟩

/-- String append is cancellative on the left. -/
theorem strAppend_left_cancel {a b c : String} (h : a ++ b = a ++ c) : b = c := by
  apply String.ext
  have hd := congrArg String.data h
  rw [String.data_append, String.data_append] at hd
  exact List.append_cancel_left hd

/-- String append is cancellative on the right. -/
theorem strAppend_right_cancel {a b c : String} (h : a ++ c = b ++ c) : a = b := by
  apply String.ext
  have hd := congrArg String.data h
  rw [String.data_append, String.data_append] at hd
  exact List.append_cancel_right hd

/-- `os.path.join` with an absolute second component returns that component. -/
theorem pyJoin_absolute (a b : String) (h : b.data.head? = some '/') :
    pyJoin a b = b := by
  unfold pyJoin
  rw [if_pos h]

/-- `os.path.join` onto a nonempty slash-terminated path just appends. -/
theorem pyJoin_slash_terminated (a b : String)
    (hb : ¬ b.data.head? = some '/') (hne : ¬ a = "")
    (ha : a.data.getLast? = some '/') : pyJoin a b = a ++ b := by
  unfold pyJoin
  rw [if_neg hb, if_neg hne, if_pos ha]

/-- A slash-terminated string ends in a slash. -/
theorem getLast?_append_slash (a : String) :
    (a ++ "/").data.getLast? = some '/' := by
  rw [String.data_append]
  exact List.getLast?_concat a.data

/-- A slash-terminated string is nonempty. -/
theorem append_slash_ne_empty (a : String) : ¬ a ++ "/" = "" := by
  intro h
  have hd := congrArg String.data h
  rw [String.data_append] at hd
  simp at hd

/-- Every decimal digit character rendered by `digitChar` is a digit. -/
theorem digitChar_isDigit (n : Nat) : (digitChar n).isDigit = true := by
  have h : n % 10 < 10 := Nat.mod_lt _ (by norm_num)
  unfold digitChar
  set k := n % 10 with hk
  interval_cases k <;> decide

/-- The character data of the quickstart timestamp, fully unfolded. -/
theorem strftimeQuickstart_eq (t : DateTime) :
    strftimeQuickstart t = String.mk
      [digitChar (t.year / 1000), digitChar (t.year / 100),
       digitChar (t.year / 10), digitChar t.year, '-',
       digitChar (t.month / 10), digitChar t.month, '-',
       digitChar (t.day / 10), digitChar t.day, '_',
       digitChar (t.hour / 10), digitChar t.hour, '-',
       digitChar (t.minute / 10), digitChar t.minute, '-',
       digitChar (t.second / 10), digitChar t.second] := by
  simp [strftimeQuickstart, pad4Chars, pad2Chars]

/-- C1, counterexample: at project name `myproj`, projects directory
`/projects` and clock time 2015-06-01 12:00:00, the created project directory
is `/projects/myproj-pipeline_quickstart-2015-06-01_12-00-00/`, and no ISO
8601 timestamp `ts` satisfies
`'/projects/myproj-pipeline_quickstart-' + ts + '/'` equal to it: the
embedded timestamp separates date and time with `_` and the time fields with
`-`, which ISO 8601 does not allow. -/
theorem C1_counterexample :
    CURRENT_PROJECT_DIR "/projects" "myproj" ⟨2015, 6, 1, 12, 0, 0⟩
      = "/projects/myproj-pipeline_quickstart-2015-06-01_12-00-00/"
    ∧ ¬ ∃ ts : String, isISO8601DateTime ts = true ∧
        "/projects/myproj-pipeline_quickstart-" ++ ts ++ "/"
          = "/projects/myproj-pipeline_quickstart-2015-06-01_12-00-00/" := by
  constructor
  · decide
  · rintro ⟨ts, hiso, heq⟩
    have hR : ("/projects/myproj-pipeline_quickstart-" ++
        "2015-06-01_12-00-00") ++ "/"
        = "/projects/myproj-pipeline_quickstart-2015-06-01_12-00-00/" := by
      decide
    have h1 : ("/projects/myproj-pipeline_quickstart-" ++ ts) ++ "/"
        = ("/projects/myproj-pipeline_quickstart-" ++
            "2015-06-01_12-00-00") ++ "/" := heq.trans hR.symm
    have h2 := strAppend_left_cancel (strAppend_right_cancel h1)
    subst h2
    exact absurd hiso (by decide)

/-- C1, amended: for every calendar time (four-digit year), the project
directory is `os.path.join(projectsDir, projectname)` followed by
`-pipeline_quickstart-`, the `%Y-%m-%d_%H-%M-%S` timestamp, and `/`; that
timestamp has the shape `YYYY-MM-DD_HH-MM-SS` and is not an ISO 8601
combined date-time timestamp (neither extended nor basic format). -/
theorem C1_amended (projectsDir projectname : String) (t : DateTime)
    (_hy : t.year < 10000) :
    CURRENT_PROJECT_DIR projectsDir projectname t
      = pyJoin projectsDir projectname ++ "-pipeline_quickstart-" ++
          strftimeQuickstart t ++ "/"
    ∧ timestampShapeQuickstart (strftimeQuickstart t) = true
    ∧ isISO8601DateTime (strftimeQuickstart t) = false := by
  refine ⟨rfl, ?_, ?_⟩
  · rw [strftimeQuickstart_eq]
    simp [timestampShapeQuickstart, digitChar_isDigit]
  · rw [strftimeQuickstart_eq]
    simp [isISO8601DateTime, isISO8601Extended, isISO8601Basic]

/-- Witness for C1: the amended statement instantiated at a concrete project
name, projects directory and clock time. -/
theorem C1_witness :
    (2015 : Nat) < 10000
    ∧ (CURRENT_PROJECT_DIR "/projects" "myproj" ⟨2015, 6, 1, 12, 0, 0⟩
        = pyJoin "/projects" "myproj" ++ "-pipeline_quickstart-" ++
            strftimeQuickstart ⟨2015, 6, 1, 12, 0, 0⟩ ++ "/"
      ∧ timestampShapeQuickstart
          (strftimeQuickstart ⟨2015, 6, 1, 12, 0, 0⟩) = true
      ∧ isISO8601DateTime (strftimeQuickstart ⟨2015, 6, 1, 12, 0, 0⟩) = false) :=
  ⟨by decide, C1_amended "/projects" "myproj" ⟨2015, 6, 1, 12, 0, 0⟩ (by decide)⟩

/-- C3, counterexample: on a run whose `working_files` supplies both looked-up
keys, the startup effects contain no creation of the configured log directory
(`<project dir>/log_quickstart`), even though the `pipeline` dict configures
that path: the repository's code only configures the log directory, it never
creates it. -/
theorem C3_counterexample :
    Effect.createDir (CURRENT_PROJECT_DIR "/projects" "myproj"
        ⟨2015, 6, 1, 12, 0, 0⟩ ++ "log_quickstart")
      ∉ (startup "/projects" "absolute/path/to/witsGWAS/"
          [("projectname", "myproj"), ("projectauthor", "me")]
          ⟨2015, 6, 1, 12, 0, 0⟩).1
    ∧ pyLookup (pipeline (CURRENT_PROJECT_DIR "/projects" "myproj"
          ⟨2015, 6, 1, 12, 0, 0⟩)) "logDir"
        = some (.pystr (CURRENT_PROJECT_DIR "/projects" "myproj"
            ⟨2015, 6, 1, 12, 0, 0⟩ ++ "log_quickstart")) := by
  constructor
  · decide
  · decide

/-- C3, amended: every run that passes the `working_files` lookups creates
the project directory, changes into it, creates the plots subdirectory
`pipeline_quickstart_plots/` inside it, and creates the
`pipeline_quickstart.Start` flag file signaling pipeline start; the log
subdirectory `log_quickstart` is only configured (as the `logDir` pipeline
option) and is not created by the startup code. -/
theorem C3_amended (projectsDir scriptsRoot proj auth : String)
    (wf : List (String × String)) (t : DateTime)
    (h1 : pyDictGet wf "projectname" = .ok proj)
    (h2 : pyDictGet wf "projectauthor" = .ok auth)
    (habs : (CURRENT_PROJECT_DIR projectsDir proj t).data.head? = some '/') :
    startup projectsDir scriptsRoot wf t
      = ([.createDir (CURRENT_PROJECT_DIR projectsDir proj t),
          .chdir (CURRENT_PROJECT_DIR projectsDir proj t),
          .createDir (CURRENT_PROJECT_DIR projectsDir proj t ++
            "pipeline_quickstart_plots/"),
          .createEmptyfile "pipeline_quickstart.Start"], none)
    ∧ pyLookup (pipeline (CURRENT_PROJECT_DIR projectsDir proj t)) "logDir"
        = some (.pystr (CURRENT_PROJECT_DIR projectsDir proj t ++
            "log_quickstart"))
    ∧ Effect.createDir (CURRENT_PROJECT_DIR projectsDir proj t ++
          "log_quickstart")
        ∉ (startup projectsDir scriptsRoot wf t).1 := by
  have hne : ¬ CURRENT_PROJECT_DIR projectsDir proj t = "" :=
    append_slash_ne_empty _
  have hlast : (CURRENT_PROJECT_DIR projectsDir proj t).data.getLast?
      = some '/' := getLast?_append_slash _
  have hplots : pyJoin (pyJoin scriptsRoot (CURRENT_PROJECT_DIR projectsDir
      proj t)) "pipeline_quickstart_plots" ++ "/"
      = CURRENT_PROJECT_DIR projectsDir proj t ++
          "pipeline_quickstart_plots/" := by
    rw [pyJoin_absolute _ _ habs,
      pyJoin_slash_terminated _ _ (by decide) hne hlast]
    apply String.ext
    simp [String.data_append]
  have hlog : pyJoin (CURRENT_PROJECT_DIR projectsDir proj t)
      "log_quickstart" = CURRENT_PROJECT_DIR projectsDir proj t ++
        "log_quickstart" :=
    pyJoin_slash_terminated _ _ (by decide) hne hlast
  have hs : startup projectsDir scriptsRoot wf t
      = ([.createDir (CURRENT_PROJECT_DIR projectsDir proj t),
          .chdir (CURRENT_PROJECT_DIR projectsDir proj t),
          .createDir (CURRENT_PROJECT_DIR projectsDir proj t ++
            "pipeline_quickstart_plots/"),
          .createEmptyfile "pipeline_quickstart.Start"], none) := by
    simp only [startup, h1, h2, hplots]
  refine ⟨hs, ?_, ?_⟩
  · rw [← hlog]
    rfl
  · rw [hs]
    intro hmem
    simp only [List.mem_cons, List.not_mem_nil, or_false] at hmem
    rcases hmem with h | h | h | h
    · have hstr : CURRENT_PROJECT_DIR projectsDir proj t ++ "log_quickstart"
          = CURRENT_PROJECT_DIR projectsDir proj t := by
        injection h
      have hL := congrArg String.length hstr
      rw [String.length_append] at hL
      have h13 : 0 < ("log_quickstart" : String).length := by decide
      omega
    · exact Effect.noConfusion h
    · have hstr := strAppend_left_cancel (show
          CURRENT_PROJECT_DIR projectsDir proj t ++ "log_quickstart"
          = CURRENT_PROJECT_DIR projectsDir proj t ++
              "pipeline_quickstart_plots/" by injection h)
      exact absurd hstr (by decide)
    · exact Effect.noConfusion h

/-- Witness for C3: the amended statement instantiated at a filled-in
`working_files`, an absolute projects directory and a concrete clock time. -/
theorem C3_witness :
    startup "/projects" "absolute/path/to/witsGWAS/"
        [("projectname", "myproj"), ("projectauthor", "me")]
        ⟨2015, 6, 1, 12, 0, 0⟩
      = ([.createDir (CURRENT_PROJECT_DIR "/projects" "myproj"
            ⟨2015, 6, 1, 12, 0, 0⟩),
          .chdir (CURRENT_PROJECT_DIR "/projects" "myproj"
            ⟨2015, 6, 1, 12, 0, 0⟩),
          .createDir (CURRENT_PROJECT_DIR "/projects" "myproj"
            ⟨2015, 6, 1, 12, 0, 0⟩ ++ "pipeline_quickstart_plots/"),
          .createEmptyfile "pipeline_quickstart.Start"], none)
    ∧ pyLookup (pipeline (CURRENT_PROJECT_DIR "/projects" "myproj"
          ⟨2015, 6, 1, 12, 0, 0⟩)) "logDir"
        = some (.pystr (CURRENT_PROJECT_DIR "/projects" "myproj"
            ⟨2015, 6, 1, 12, 0, 0⟩ ++ "log_quickstart"))
    ∧ Effect.createDir (CURRENT_PROJECT_DIR "/projects" "myproj"
          ⟨2015, 6, 1, 12, 0, 0⟩ ++ "log_quickstart")
        ∉ (startup "/projects" "absolute/path/to/witsGWAS/"
            [("projectname", "myproj"), ("projectauthor", "me")]
            ⟨2015, 6, 1, 12, 0, 0⟩).1 :=
  C3_amended "/projects" "absolute/path/to/witsGWAS/" "myproj" "me"
    [("projectname", "myproj"), ("projectauthor", "me")]
    ⟨2015, 6, 1, 12, 0, 0⟩ rfl rfl (by decide)

/-- C6: for every stage whose name is in the configured force set, the
Staleness Resolver reports the stage stale, whatever the input, output and
checkpoint timestamps are. -/
theorem C6_forced_always_stale (force : List String) (fs : FS)
    (name : String) (s : StageDef) (h : name ∈ force) :
    isStale force fs name s = true := by
  unfold isStale
  rw [decide_eq_true h]
  rfl

/-- Witness for C6: a forced stage that is fully up to date (outputs exist,
are newer than inputs and newer than the checkpoint) is still stale. -/
theorem C6_witness :
    "task2" ∈ ["task2"]
    ∧ upToDate ⟨fun _ => some 5, fun _ => some 0, 10⟩ "task2"
        ⟨"", ["in1"], ["out1"], []⟩ = true
    ∧ isStale ["task2"] ⟨fun _ => some 5, fun _ => some 0, 10⟩ "task2"
        ⟨"", ["in1"], ["out1"], []⟩ = true :=
  ⟨by decide, rfl,
    C6_forced_always_stale ["task2"] ⟨fun _ => some 5, fun _ => some 0, 10⟩
      "task2" ⟨"", ["in1"], ["out1"], []⟩ (by decide)⟩

/-- The terminal-successful statuses, as a proposition. -/
theorem statusTerminalOK_iff {x : StageStatus} :
    statusTerminalOK x = true ↔ x = .succeeded ∨ x = .skipped := by
  cases x <;> simp [statusTerminalOK]

/-- One step of the Run Controller relation preserves the never-begins-early
invariant. -/
theorem step_preserves_startedOK {reg : Registry} {force : List String}
    {st st' : RunState} (h : Step reg force st st')
    (hinv : StartedOK reg st) : StartedOK reg st' := by
  cases h with
  | start n s hfind hpend hdeps hstale =>
    intro m sm hfindm hstarted d hd
    by_cases hmn : m = n
    · subst hmn
      have hsm : sm = s := by
        have := hfind.symm.trans hfindm
        exact (Option.some.injEq _ _ ▸ this).symm
      subst hsm
      have hall := List.all_eq_true.mp hdeps d hd
      by_cases hdn : d = m
      · subst hdn
        rw [hpend] at hall
        exact absurd hall (by decide)
      · have := statusTerminalOK_iff.mp hall
        simpa [hdn] using this
    · have hstarted' : startedStatus (st.status m) = true := by
        simpa [hmn] using hstarted
      have hds := hinv m sm hfindm hstarted' d hd
      by_cases hdn : d = n
      · subst hdn
        rw [hpend] at hds
        rcases hds with h | h <;> exact absurd h (by simp)
      · simpa [hdn] using hds
  | skip n s hfind hpend hdeps hstale =>
    intro m sm hfindm hstarted d hd
    by_cases hmn : m = n
    · subst hmn
      simp [startedStatus] at hstarted
    · have hstarted' : startedStatus (st.status m) = true := by
        simpa [hmn] using hstarted
      have hds := hinv m sm hfindm hstarted' d hd
      by_cases hdn : d = n
      · subst hdn
        right
        simp
      · simpa [hdn] using hds
  | finishOk n s hfind hrun =>
    intro m sm hfindm hstarted d hd
    by_cases hmn : m = n
    · subst hmn
      have hds := hinv m sm hfindm (by rw [hrun]; rfl) d hd
      by_cases hdn : d = m
      · subst hdn
        left
        simp
      · simpa [hdn] using hds
    · have hstarted' : startedStatus (st.status m) = true := by
        simpa [hmn] using hstarted
      have hds := hinv m sm hfindm hstarted' d hd
      by_cases hdn : d = n
      · subst hdn
        left
        simp
      · simpa [hdn] using hds
  | finishFail n s hfind hrun =>
    intro m sm hfindm hstarted d hd
    by_cases hmn : m = n
    · subst hmn
      have hds := hinv m sm hfindm (by rw [hrun]; rfl) d hd
      by_cases hdn : d = m
      · subst hdn
        rw [hrun] at hds
        rcases hds with h | h <;> exact absurd h (by simp)
      · simpa [hdn] using hds
    · have hstarted' : startedStatus (st.status m) = true := by
        simpa [hmn] using hstarted
      have hds := hinv m sm hfindm hstarted' d hd
      by_cases hdn : d = n
      · subst hdn
        rw [hrun] at hds
        rcases hds with h | h <;> exact absurd h (by simp)
      · simpa [hdn] using hds

/-- C8: along every execution of the Run Controller step relation from the
initial all-`PENDING` state, every stage that has begun running has all its
declared dependencies in a terminal `SUCCEEDED` or `SKIPPED` state: no stage
ever begins before its dependencies are terminally successful or skipped. -/
theorem C8_never_begins_early (reg : Registry) (force : List String)
    (fs : FS) (st : RunState)
    (h : Relation.ReflTransGen (Step reg force) (initState fs) st) :
    StartedOK reg st := by
  induction h with
  | refl =>
    intro n s _ hstarted _ _
    simp [initState, startedStatus] at hstarted
  | tail _ hstep ih => exact step_preserves_startedOK hstep ih

/-- Witness for C8: a one-step execution that starts `task1` (no
dependencies, stale on an empty filesystem) reaches a state satisfying the
never-begins-early invariant. -/
theorem C8_witness :
    StartedOK [("task1", ⟨"", [], ["f1"], []⟩)]
      { fs := ⟨fun _ => none, fun _ => none, 0⟩,
        status := fun m => if m = "task1" then .running else .pending,
        ran := ["task1"] } := by
  have hstep : Step [("task1", ⟨"", [], ["f1"], []⟩)] []
      (initState ⟨fun _ => none, fun _ => none, 0⟩)
      { fs := ⟨fun _ => none, fun _ => none, 0⟩,
        status := fun m => if m = "task1" then .running else .pending,
        ran := ["task1"] } :=
    Step.start "task1" ⟨"", [], ["f1"], []⟩ rfl rfl rfl rfl
  exact C8_never_begins_early _ [] _ _ (Relation.ReflTransGen.single hstep)

/-- A name with a stage definition is among the registry's names. -/
theorem findStage_mem {reg : Registry} {a : String} {s : StageDef}
    (h : findStage reg a = some s) : a ∈ stageNames reg := by
  induction reg with
  | nil => simp [findStage] at h
  | cons p rest ih =>
    rw [findStage] at h
    by_cases hp : p.1 = a
    · simp [stageNames, hp.symm]
    · rw [if_neg hp] at h
      have := ih h
      simp [stageNames] at this ⊢
      exact Or.inr this

/-- The source of a dependency edge is a defined stage name. -/
theorem EdgeP_src_mem {reg : Registry} {a b : String} (h : EdgeP reg a b) :
    a ∈ stageNames reg := by
  unfold EdgeP succs at h
  cases hf : findStage reg a with
  | none => rw [hf] at h; simp at h
  | some s => exact findStage_mem hf

/-- Bounded reachability is monotone in the fuel. -/
theorem reach_mono {reg : Registry} :
    ∀ {m n : Nat}, m ≤ n → ∀ {a b : String},
      b ∈ reachN reg m a → b ∈ reachN reg n a := by
  intro m
  induction m with
  | zero => intro n _ a b h; simp [reachN] at h
  | succ m ih =>
    intro n hmn a b h
    obtain ⟨n', rfl⟩ : ∃ n', n = n' + 1 := ⟨n - 1, by omega⟩
    rw [reachN] at h ⊢
    rcases List.mem_append.mp h with h1 | h2
    · exact List.mem_append.mpr (Or.inl h1)
    · rw [List.mem_flatten] at h2
      obtain ⟨L, hL, hbL⟩ := h2
      rw [List.mem_map] at hL
      obtain ⟨c, hc, rfl⟩ := hL
      refine List.mem_append.mpr (Or.inr ?_)
      rw [List.mem_flatten]
      exact ⟨reachN reg n' c, List.mem_map.mpr ⟨c, hc, rfl⟩,
        ih (by omega) hbL⟩

/-- Soundness of bounded reachability: a reachable name is the endpoint of a
nonempty dependency walk. -/
theorem reach_sound {reg : Registry} :
    ∀ {n : Nat} {a b : String}, b ∈ reachN reg n a →
      ∃ l : List String, l ≠ [] ∧ List.Chain (EdgeP reg) a l ∧
        l.getLast? = some b := by
  intro n
  induction n with
  | zero => intro a b h; simp [reachN] at h
  | succ n ih =>
    intro a b h
    rw [reachN] at h
    rcases List.mem_append.mp h with h1 | h2
    · exact ⟨[b], by simp, List.Chain.cons h1 List.Chain.nil, by simp⟩
    · rw [List.mem_flatten] at h2
      obtain ⟨L, hL, hbL⟩ := h2
      rw [List.mem_map] at hL
      obtain ⟨c, hc, rfl⟩ := hL
      obtain ⟨l, hlne, hchain, hlast⟩ := ih hbL
      refine ⟨c :: l, by simp, List.Chain.cons hc hchain, ?_⟩
      cases l with
      | nil => exact absurd rfl hlne
      | cons x xs => rw [List.getLast?_cons_cons]; exact hlast

/-- Completeness of bounded reachability over a walk: the endpoint of a walk
of at most `n` edges lies in `reachN n`. -/
theorem walk_reach {reg : Registry} :
    ∀ {l : List String} {a b : String} {n : Nat},
      List.Chain (EdgeP reg) a l → l ≠ [] → l.getLast? = some b →
      l.length ≤ n → b ∈ reachN reg n a := by
  intro l
  induction l with
  | nil => intro a b n _ hne; exact absurd rfl hne
  | cons c l' ih =>
    intro a b n hchain _ hlast hlen
    obtain ⟨n', rfl⟩ : ∃ n', n = n' + 1 := ⟨n - 1, by simp at hlen; omega⟩
    rw [reachN]
    cases hchain with
    | cons hac hchain' =>
      cases l' with
      | nil =>
        simp at hlast
        subst hlast
        exact List.mem_append.mpr (Or.inl hac)
      | cons d l'' =>
        have hlast' : (d :: l'').getLast? = some b := by
          rw [List.getLast?_cons_cons] at hlast
          exact hlast
        have hlen2 : (d :: l'').length ≤ n' := by
          simp at hlen ⊢
          omega
        have hb := ih hchain' (by simp) hlast' hlen2
        refine List.mem_append.mpr (Or.inr ?_)
        rw [List.mem_flatten]
        exact ⟨reachN reg n' c, List.mem_map.mpr ⟨c, hac, rfl⟩, hb⟩

/-- A list with a repeated element splits around the two occurrences. -/
theorem exists_dup_split {α : Type} [DecidableEq α] :
    ∀ {l : List α}, ¬ l.Nodup →
      ∃ (x : α) (l₁ l₂ l₃ : List α), l = l₁ ++ x :: (l₂ ++ x :: l₃) := by
  intro l
  induction l with
  | nil => intro h; exact absurd List.nodup_nil h
  | cons a t ih =>
    intro h
    by_cases ha : a ∈ t
    · obtain ⟨s, u, rfl⟩ := List.append_of_mem ha
      exact ⟨a, [], s, u, by simp⟩
    · have ht : ¬ t.Nodup := fun hnd => h (List.nodup_cons.mpr ⟨ha, hnd⟩)
      obtain ⟨x, l₁, l₂, l₃, rfl⟩ := ih ht
      exact ⟨x, a :: l₁, l₂, l₃, by simp⟩

/-- Pigeonhole: a list longer than a covering list has a repeat. -/
theorem not_nodup_of_long {α : Type} [DecidableEq α] {l K : List α}
    (hsub : ∀ x ∈ l, x ∈ K) (hlen : K.length < l.length) : ¬ l.Nodup := by
  intro hnd
  have hle := (List.subperm_of_subset hnd fun x hx => hsub x hx).length_le
  omega

/-- Every element of a walk except the last is the source of an edge, hence
a defined stage name. -/
theorem chain_sources_mem {reg : Registry} :
    ∀ {l : List String} {a : String}, List.Chain (EdgeP reg) a l →
      ∀ x ∈ (a :: l).dropLast, x ∈ stageNames reg := by
  intro l
  induction l with
  | nil => intro a _ x hx; simp at hx
  | cons c l' ih =>
    intro a hchain x hx
    cases hchain with
    | cons hac hch' =>
      rw [List.dropLast_cons₂, List.mem_cons] at hx
      rcases hx with rfl | hx
      · exact EdgeP_src_mem hac
      · exact ih hch' x hx

/-- Any dependency cycle is detected by bounded reachability: some registry
entry reaches itself within `reg.length` edges. -/
theorem cycle_detected_aux {reg : Registry} :
    ∀ (n : Nat) {a : String} {l : List String},
      l.length ≤ n → l ≠ [] → List.Chain (EdgeP reg) a l →
      l.getLast? = some a →
      ∃ p ∈ reg, p.1 ∈ reachN reg reg.length p.1 := by
  intro n
  induction n with
  | zero =>
    intro a l hlen hne _ _
    cases l with
    | nil => exact absurd rfl hne
    | cons x xs => simp at hlen
  | succ n ih =>
    intro a l hlen hne hchain hlast
    by_cases hshort : l.length ≤ reg.length
    · have hreach := walk_reach hchain hne hlast hshort
      cases hl : l with
      | nil => exact absurd hl hne
      | cons c l' =>
        subst hl
        cases hchain with
        | cons hac _ =>
          have hmem := EdgeP_src_mem hac
          rw [stageNames, List.mem_map] at hmem
          obtain ⟨p, hp, hpa⟩ := hmem
          exact ⟨p, hp, by rw [hpa]; exact hreach⟩
    · push_neg at hshort
      have hgl : (a :: l).getLast (by simp) = a := by
        have h1 : (a :: l).getLast? = some a := by
          cases l with
          | nil => exact absurd rfl hne
          | cons x xs => rw [List.getLast?_cons_cons]; exact hlast
        have h2 := (List.getLast?_eq_getLast (a :: l) (by simp)).symm.trans h1
        exact Option.some.inj h2
      have hsplitW : (a :: l).dropLast ++ [a] = a :: l := by
        have hc := List.dropLast_concat_getLast (l := a :: l) (by simp)
        rw [hgl] at hc
        exact hc
      have hsubs := chain_sources_mem hchain
      have hnd : ¬ ((a :: l).dropLast).Nodup := by
        refine not_nodup_of_long hsubs ?_
        rw [stageNames, List.length_map]
        simp
        omega
      obtain ⟨x, l₁, l₂, l₃, hsplit⟩ := exists_dup_split hnd
      have hW : a :: l = l₁ ++ x :: (l₂ ++ x :: (l₃ ++ [a])) := by
        rw [← hsplitW, hsplit]
        simp
      have hlenW := congrArg List.length hW
      simp at hlenW
      have hxlen : l₂.length + 1 ≤ n := by omega
      have hform : ∃ l₂' : List String,
          List.Chain (EdgeP reg) x l₂' ∧ l₂' ≠ [] ∧
          l₂'.getLast? = some x ∧ l₂'.length ≤ n := by
        cases l₁ with
        | nil =>
          rw [List.nil_append] at hW
          injection hW with h1 h2
          rw [h1] at hchain
          rw [h2] at hchain
          have hsp := List.chain_split.mp hchain
          exact ⟨l₂ ++ [x], hsp.1, by simp, List.getLast?_concat _, by
            simpa using hxlen⟩
        | cons a₀ l₁' =>
          rw [List.cons_append] at hW
          injection hW with h1 h2
          rw [h2] at hchain
          have hsp := List.chain_split.mp hchain
          have hsp2 := List.chain_split.mp hsp.2
          exact ⟨l₂ ++ [x], hsp2.1, by simp, List.getLast?_concat _, by
            simpa using hxlen⟩
      obtain ⟨l₂', hch, hne', hlast', hlen'⟩ := hform
      exact ih hlen' hne' hch hlast'

/-- Any dependency cycle yields a registry entry detected by the bounded
reachability check. -/
theorem cycle_detected {reg : Registry} {a : String}
    (h : SelfWalkFrom reg a) :
    ∃ p ∈ reg, p.1 ∈ reachN reg reg.length p.1 := by
  obtain ⟨l, hne, hchain, hlast⟩ := h
  exact cycle_detected_aux l.length le_rfl hne hchain hlast

/-- An acyclic registry passes the cycle check. -/
theorem cycleEntry_eq_none_of_acyclic {reg : Registry} (h : Acyclic reg) :
    cycleEntry reg = none := by
  cases hq : cycleEntry reg with
  | none => rfl
  | some q =>
    have hq2 : List.find?
        (fun p => decide (p.1 ∈ reachN reg reg.length p.1)) reg = some q := hq
    have hpred := List.find?_some hq2
    have hreach := of_decide_eq_true hpred
    obtain ⟨l, hne, hchain, hlast⟩ := reach_sound hreach
    exact absurd ⟨q.1, l, hne, hchain, hlast⟩ h

/-- Conversely, a registry that passes the cycle check is acyclic. -/
theorem acyclic_of_cycleEntry_eq_none {reg : Registry}
    (h : cycleEntry reg = none) : Acyclic reg := by
  rintro ⟨a, hwalk⟩
  obtain ⟨p, hp, hreach⟩ := cycle_detected hwalk
  have h2 : List.find?
      (fun p => decide (p.1 ∈ reachN reg reg.length p.1)) reg = none := h
  exact List.find?_eq_none.mp h2 p hp (decide_eq_true hreach)

/-- A registry whose dependency names all exist has no missing dependency. -/
theorem missingDep_eq_none {reg : Registry}
    (h : ∀ p ∈ reg, ∀ d ∈ p.2.deps, d ∈ stageNames reg) :
    missingDep reg = none := by
  unfold missingDep
  suffices haux : ∀ l : Registry,
      (∀ p ∈ l, ∀ d ∈ p.2.deps, d ∈ stageNames reg) →
      missingDepAux (stageNames reg) l = none by
    exact haux reg h
  intro l
  induction l with
  | nil => intro _; rfl
  | cons p rest ih =>
    intro hl
    rw [missingDepAux]
    have hfind : p.2.deps.find? (fun d => !(decide (d ∈ stageNames reg)))
        = none := by
      rw [List.find?_eq_none]
      intro d hd
      simp [hl p (by simp) d hd]
    rw [hfind]
    exact ih fun q hq => hl q (by simp [hq])

/-- C5: for every stage mapping whose dependency graph is acyclic and whose
declared dependency names all exist, Stage Registry validation succeeds; for
every mapping whose dependency graph contains a cycle, validation fails with
a `ConfigurationError` naming a stage that lies on a cycle, and no stage is
executed (the pipeline's executed-stage list is empty whatever the force
set, dispatcher and filesystem are). -/
theorem C5_registry_validation (reg : Registry) :
    ((∀ p ∈ reg, ∀ d ∈ p.2.deps, d ∈ stageNames reg) → Acyclic reg →
      validate reg = .ok ())
    ∧ (HasCycle reg →
        ∃ c, validate reg = .error (.cyclic c) ∧ SelfWalkFrom reg c ∧
          ∀ force dispatch fs, runPipeline reg force dispatch fs = []) := by
  constructor
  · intro hdeps hacyc
    unfold validate
    rw [cycleEntry_eq_none_of_acyclic hacyc, missingDep_eq_none hdeps]
  · rintro ⟨a, hwalk⟩
    obtain ⟨p, hp, hreach⟩ := cycle_detected hwalk
    have hsome : ∃ q, cycleEntry reg = some q := by
      have : (cycleEntry reg).isSome := by
        rw [cycleEntry, List.find?_isSome]
        exact ⟨p, hp, decide_eq_true hreach⟩
      exact Option.isSome_iff_exists.mp this
    obtain ⟨q, hq⟩ := hsome
    have hq2 : List.find?
        (fun p => decide (p.1 ∈ reachN reg reg.length p.1)) reg = some q := hq
    have hqpred := List.find?_some hq2
    have hqreach := of_decide_eq_true hqpred
    obtain ⟨l, hne, hchain, hlast⟩ := reach_sound hqreach
    refine ⟨q.1, ?_, ⟨l, hne, hchain, hlast⟩, ?_⟩
    · unfold validate
      rw [hq]
    · intro force dispatch fs
      unfold runPipeline validate
      rw [hq]

/-- Witness for C5: an acyclic two-stage registry with defined dependencies
validates, and a self-dependent registry is rejected with a cyclic error on
a stage that is on a cycle, executing nothing. -/
theorem C5_witness :
    validate [("task1", ⟨"", [], [], []⟩), ("task2", ⟨"", [], [], ["task1"]⟩)]
      = .ok ()
    ∧ ∃ c, validate [("task1", ⟨"", [], [], ["task1"]⟩)]
          = .error (.cyclic c)
        ∧ SelfWalkFrom [("task1", ⟨"", [], [], ["task1"]⟩)] c
        ∧ ∀ force dispatch fs,
            runPipeline [("task1", ⟨"", [], [], ["task1"]⟩)]
              force dispatch fs = [] := by
  constructor
  · exact (C5_registry_validation _).1 (by decide)
      (acyclic_of_cycleEntry_eq_none (by decide))
  · refine (C5_registry_validation _).2 ⟨"task1", ["task1"], by simp, ?_, rfl⟩
    exact List.Chain.cons (by decide) List.Chain.nil

/-- The controller on an empty stage list is the identity. -/
theorem runController_nil (force : List String) (dispatch : String → Bool)
    (st : RunState) : runController force dispatch [] st = st := rfl

/-- The controller processes the head stage first. -/
theorem runController_cons (force : List String) (dispatch : String → Bool)
    (u : String × StageDef) (rest : Registry) (st : RunState) :
    runController force dispatch (u :: rest) st
      = runController force dispatch rest (stepStage force dispatch st u) :=
  rfl

/-- `List.all` only depends on the function's values on the list. -/
theorem all_congr_mem {α : Type} {l : List α} {f g : α → Bool}
    (h : ∀ x ∈ l, f x = g x) : l.all f = l.all g := by
  induction l with
  | nil => rfl
  | cons a t ih =>
    rw [List.all_cons, List.all_cons, h a (by simp),
      ih fun x hx => h x (by simp [hx])]

/-- Up-to-dateness only depends on the stage's own outputs, inputs and
checkpoint record. -/
theorem upToDate_congr {fs fs' : FS} {name : String} {s : StageDef}
    (hout : ∀ o ∈ s.outputs, fs'.mtime o = fs.mtime o)
    (hin : ∀ i ∈ s.inputs, fs'.mtime i = fs.mtime i)
    (hcp : fs'.checkpoint name = fs.checkpoint name) :
    upToDate fs' name s = upToDate fs name s := by
  have h1 : outputsFresh fs' s = outputsFresh fs s := by
    unfold outputsFresh
    apply all_congr_mem
    intro o ho
    rw [hout o ho]
    cases fs.mtime o with
    | none => rfl
    | some tOut =>
      apply all_congr_mem
      intro i hi
      rw [hin i hi]
  have h2 : outputsAfterCheckpoint fs' name s
      = outputsAfterCheckpoint fs name s := by
    unfold outputsAfterCheckpoint
    rw [hcp]
    cases fs.checkpoint name with
    | none => rfl
    | some tc =>
      apply all_congr_mem
      intro o ho
      rw [hout o ho]
  unfold upToDate
  rw [h1, h2]

/-- Characterization of output freshness. -/
theorem outputsFresh_eq_true_iff {fs : FS} {s : StageDef} :
    outputsFresh fs s = true ↔
      ∀ o ∈ s.outputs, ∃ tOut, fs.mtime o = some tOut ∧
        ∀ i ∈ s.inputs, ∀ tIn, fs.mtime i = some tIn → tIn ≤ tOut := by
  unfold outputsFresh
  rw [List.all_eq_true]
  constructor
  · intro h o ho
    have h1 := h o ho
    cases hmo : fs.mtime o with
    | none => rw [hmo] at h1; simp at h1
    | some tOut =>
      rw [hmo] at h1
      refine ⟨tOut, rfl, ?_⟩
      intro i hi tIn hmi
      have h2 := List.all_eq_true.mp h1 i hi
      rw [hmi] at h2
      exact of_decide_eq_true h2
  · intro h o ho
    obtain ⟨tOut, hmo, hins⟩ := h o ho
    rw [hmo, List.all_eq_true]
    intro i hi
    cases hmi : fs.mtime i with
    | none => rfl
    | some tIn => exact decide_eq_true (hins i hi tIn hmi)

/-- Characterization of checkpoint freshness. -/
theorem outputsAfterCheckpoint_eq_true_iff {fs : FS} {name : String}
    {s : StageDef} :
    outputsAfterCheckpoint fs name s = true ↔
      ∃ tc, fs.checkpoint name = some tc ∧
        ∀ o ∈ s.outputs, ∃ tOut, fs.mtime o = some tOut ∧ tc ≤ tOut := by
  unfold outputsAfterCheckpoint
  cases hcp : fs.checkpoint name with
  | none => simp
  | some tc =>
    constructor
    · intro h
      refine ⟨tc, rfl, ?_⟩
      intro o ho
      have h2 := List.all_eq_true.mp h o ho
      cases hmo : fs.mtime o with
      | none => rw [hmo] at h2; simp at h2
      | some tOut =>
        rw [hmo] at h2
        exact ⟨tOut, rfl, of_decide_eq_true h2⟩
    · rintro ⟨tc', hc', hall⟩
      have htc : tc' = tc := (Option.some.inj hc').symm
      subst htc
      rw [List.all_eq_true]
      intro o ho
      obtain ⟨tOut, hmo, hle⟩ := hall o ho
      rw [hmo]
      exact decide_eq_true hle

/-- Characterization of up-to-dateness. -/
theorem upToDate_eq_true_iff {fs : FS} {name : String} {s : StageDef} :
    upToDate fs name s = true ↔
      s.outputs ≠ [] ∧ outputsFresh fs s = true ∧
        outputsAfterCheckpoint fs name s = true := by
  unfold upToDate
  rw [Bool.and_eq_true, Bool.and_eq_true]
  constructor
  · rintro ⟨⟨h1, h2⟩, h3⟩
    refine ⟨?_, h2, h3⟩
    intro he
    rw [he] at h1
    simp at h1
  · rintro ⟨h1, h2, h3⟩
    refine ⟨⟨?_, h2⟩, h3⟩
    cases ho : s.outputs with
    | nil => exact absurd ho h1
    | cons a t => rfl

/-- After a successful execution at the current clock, the stage is up to
date: its outputs carry the clock time, every input is older, and the fresh
checkpoint carries the clock time too. -/
theorem upToDate_after_exec (fs : FS) (n : String) (s : StageDef)
    (cp : String → Option Nat) (hcpn : cp n = some fs.clock)
    (houts : s.outputs ≠ [])
    (hclock : ∀ f t, fs.mtime f = some t → t < fs.clock) :
    upToDate
      { mtime := writeOutputs fs s.outputs, checkpoint := cp,
        clock := fs.clock + 1 } n s = true := by
  rw [upToDate_eq_true_iff]
  refine ⟨houts, ?_, ?_⟩
  · rw [outputsFresh_eq_true_iff]
    intro o ho
    refine ⟨fs.clock, ?_, ?_⟩
    · show writeOutputs fs s.outputs o = some fs.clock
      unfold writeOutputs
      rw [if_pos ho]
    · intro i hi tIn hmi
      have hmi' : writeOutputs fs s.outputs i = some tIn := hmi
      unfold writeOutputs at hmi'
      by_cases hio : i ∈ s.outputs
      · rw [if_pos hio] at hmi'
        exact Nat.le_of_eq (Option.some.inj hmi'.symm)
      · rw [if_neg hio] at hmi'
        exact Nat.le_of_lt (hclock i tIn hmi')
  · rw [outputsAfterCheckpoint_eq_true_iff]
    refine ⟨fs.clock, hcpn, ?_⟩
    intro o ho
    refine ⟨fs.clock, ?_, Nat.le_refl _⟩
    show writeOutputs fs s.outputs o = some fs.clock
    unfold writeOutputs
    rw [if_pos ho]

/-- First invocation of the Run Controller: processing a topologically
ordered suffix of the registry from a state whose processed prefix is
terminal-successful and up to date leaves every stage terminal-successful
and up to date, with the clock still dominating all file times. -/
theorem run1_go (dispatch : String → Bool) (hdisp : ∀ n, dispatch n = true)
    {reg : Registry} (hnodup : (stageNames reg).Nodup)
    (hdisj : OutputsDisjoint reg) (hcov : InputsCovered reg)
    (houts : ∀ p ∈ reg, p.2.outputs ≠ []) :
    ∀ (rest pre : Registry) (seen : List String) (st : RunState),
      reg = pre ++ rest →
      (∀ x, x ∈ seen ↔ x ∈ stageNames pre) →
      topoOK seen rest = true →
      (∀ p ∈ pre, ∀ d ∈ p.2.deps, d ∈ stageNames pre) →
      (∀ p ∈ pre, st.status p.1 = .succeeded ∨ st.status p.1 = .skipped) →
      (∀ p ∈ pre, upToDate st.fs p.1 p.2 = true) →
      (∀ f t, st.fs.mtime f = some t → t < st.fs.clock) →
      ((∀ p ∈ reg, (runController [] dispatch rest st).status p.1 = .succeeded
          ∨ (runController [] dispatch rest st).status p.1 = .skipped)
        ∧ (∀ p ∈ reg,
            upToDate (runController [] dispatch rest st).fs p.1 p.2 = true)
        ∧ (∀ f t, (runController [] dispatch rest st).fs.mtime f = some t →
            t < (runController [] dispatch rest st).fs.clock)) := by
  intro rest
  induction rest with
  | nil =>
    intro pre seen st hsplit hseen htopo hdeps hstat hupd hclock
    rw [List.append_nil] at hsplit
    subst hsplit
    exact ⟨hstat, hupd, hclock⟩
  | cons u rest' ih =>
    intro pre seen st hsplit hseen htopo hdeps hstat hupd hclock
    rw [topoOK, Bool.and_eq_true] at htopo
    obtain ⟨htopo1, htopo2⟩ := htopo
    have hdseen : ∀ d ∈ u.2.deps, d ∈ seen := fun d hd =>
      of_decide_eq_true (List.all_eq_true.mp htopo1 d hd)
    have hnames : stageNames reg = stageNames pre ++ u.1 :: stageNames rest' := by
      rw [hsplit]
      simp [stageNames]
    have hnd2 := hnodup
    rw [hnames] at hnd2
    have hdisjn := (List.nodup_append.mp hnd2).2.2
    have hne_pre_u : ∀ p ∈ pre, p.1 ≠ u.1 := by
      intro p hp heq
      exact hdisjn (List.mem_map.mpr ⟨p, hp, rfl⟩)
        (heq ▸ List.mem_cons_self _ _)
    have hu : u ∈ reg := by
      rw [hsplit]
      exact List.mem_append.mpr (Or.inr (List.mem_cons_self _ _))
    have hdisj2 := hdisj
    unfold OutputsDisjoint at hdisj2
    rw [hsplit] at hdisj2
    have hcross0 := (List.pairwise_append.mp hdisj2).2.2
    have hcross : ∀ p ∈ pre, ∀ o ∈ p.2.outputs, o ∉ u.2.outputs :=
      fun p hp => hcross0 p hp u (List.mem_cons_self _ _)
    have hq_pre : ∀ q ∈ reg, q.1 ∈ stageNames pre → q ∈ pre := by
      intro q hq hqn
      rw [hsplit] at hq
      rcases List.mem_append.mp hq with h | h
      · exact h
      · have hm : q.1 ∈ u.1 :: stageNames rest' := by
          have hm0 : q.1 ∈ stageNames (u :: rest') :=
            List.mem_map.mpr ⟨q, h, rfl⟩
          simpa [stageNames] using hm0
        exact (hdisjn hqn hm).elim
    have hinputs_pre : ∀ p ∈ pre, ∀ i ∈ p.2.inputs, i ∉ u.2.outputs := by
      intro p hp i hi
      have hpreg : p ∈ reg := by
        rw [hsplit]; exact List.mem_append.mpr (Or.inl hp)
      rcases hcov p hpreg i hi with ⟨q, hq, hqd, hqo⟩ | hext
      · have hqn : q.1 ∈ stageNames pre := hdeps p hp q.1 hqd
        exact hcross q (hq_pre q hq hqn) i hqo
      · exact hext u hu
    have hdepsOK : depsOK st.status u.2 = true := by
      unfold depsOK
      rw [List.all_eq_true]
      intro d hd
      have hdpre := (hseen d).mp (hdseen d hd)
      rw [stageNames, List.mem_map] at hdpre
      obtain ⟨p, hp, hpd⟩ := hdpre
      subst hpd
      rcases hstat p hp with h | h <;> rw [h] <;> rfl
    have hsplit' : reg = (pre ++ [u]) ++ rest' := by
      rw [hsplit]
      simp
    have hpnames : stageNames (pre ++ [u]) = stageNames pre ++ [u.1] := by
      simp [stageNames]
    have hseen' : ∀ x, x ∈ u.1 :: seen ↔ x ∈ stageNames (pre ++ [u]) := by
      intro x
      rw [List.mem_cons, hseen x, hpnames, List.mem_append]
      simp [or_comm]
    have hdeps' : ∀ p ∈ pre ++ [u], ∀ d ∈ p.2.deps,
        d ∈ stageNames (pre ++ [u]) := by
      intro p hp d hd
      rw [hpnames]
      rcases List.mem_append.mp hp with h | h
      · exact List.mem_append.mpr (Or.inl (hdeps p h d hd))
      · simp at h
        subst h
        exact List.mem_append.mpr (Or.inl ((hseen d).mp (hdseen d hd)))
    rw [runController_cons]
    cases hst : isStale [] st.fs u.1 u.2 with
    | false =>
      have hupd_u : upToDate st.fs u.1 u.2 = true := by
        unfold isStale at hst
        simpa using hst
      have hstep : stepStage [] dispatch st u
          = { st with status := fun m => if m = u.1 then .skipped
              else st.status m } := by
        simp [stepStage, hdepsOK, hst]
      rw [hstep]
      refine ih (pre ++ [u]) (u.1 :: seen) _ hsplit' hseen' htopo2 hdeps'
        ?_ ?_ ?_
      · intro p hp
        rcases List.mem_append.mp hp with h | h
        · rcases hstat p h with hh | hh
          · left; simpa [hne_pre_u p h] using hh
          · right; simpa [hne_pre_u p h] using hh
        · simp at h
          subst h
          right
          simp
      · intro p hp
        rcases List.mem_append.mp hp with h | h
        · exact hupd p h
        · simp at h
          subst h
          exact hupd_u
      · exact hclock
    | true =>
      have hstep : stepStage [] dispatch st u
          = { fs := { mtime := writeOutputs st.fs u.2.outputs,
                      checkpoint := fun m => if m = u.1 then some st.fs.clock
                        else st.fs.checkpoint m,
                      clock := st.fs.clock + 1 },
              status := fun m => if m = u.1 then .succeeded else st.status m,
              ran := st.ran ++ [u.1] } := by
        simp [stepStage, execStage, hdepsOK, hst, hdisp u.1]
      rw [hstep]
      refine ih (pre ++ [u]) (u.1 :: seen) _ hsplit' hseen' htopo2 hdeps'
        ?_ ?_ ?_
      · intro p hp
        rcases List.mem_append.mp hp with h | h
        · rcases hstat p h with hh | hh
          · left; simpa [hne_pre_u p h] using hh
          · right; simpa [hne_pre_u p h] using hh
        · simp at h
          subst h
          left
          simp
      · intro p hp
        rcases List.mem_append.mp hp with h | h
        · have hcongr : upToDate
              { mtime := writeOutputs st.fs u.2.outputs,
                checkpoint := fun m => if m = u.1 then some st.fs.clock
                  else st.fs.checkpoint m,
                clock := st.fs.clock + 1 } p.1 p.2
              = upToDate st.fs p.1 p.2 := by
            apply upToDate_congr
            · intro o ho
              simp only [writeOutputs]
              rw [if_neg (hcross p h o ho)]
            · intro i hi
              simp only [writeOutputs]
              rw [if_neg (hinputs_pre p h i hi)]
            · simp only []
              rw [if_neg (hne_pre_u p h)]
          rw [hcongr]
          exact hupd p h
        · simp at h
          subst h
          exact upToDate_after_exec st.fs p.1 p.2 _ (by simp) (houts p hu)
            hclock
      · intro f t hft
        have hft' : writeOutputs st.fs u.2.outputs f = some t := hft
        show t < st.fs.clock + 1
        unfold writeOutputs at hft'
        by_cases hf : f ∈ u.2.outputs
        · rw [if_pos hf] at hft'
          have ht := Option.some.inj hft'
          omega
        · rw [if_neg hf] at hft'
          have ht := hclock f t hft'
          omega

/-- Second invocation of the Run Controller: over a filesystem in which
every stage is up to date, a topologically ordered suffix is entirely
skipped, with no filesystem change and no stage entering `RUNNING`. -/
theorem run2_go (dispatch : String → Bool) {reg : Registry} (fsr : FS)
    (hupdAll : ∀ p ∈ reg, upToDate fsr p.1 p.2 = true) :
    ∀ (rest pre : Registry) (seen : List String) (st : RunState),
      reg = pre ++ rest →
      (∀ x, x ∈ seen ↔ x ∈ stageNames pre) →
      topoOK seen rest = true →
      st.fs = fsr →
      st.ran = [] →
      (∀ p ∈ pre, st.status p.1 = .skipped) →
      ((runController [] dispatch rest st).ran = []
        ∧ (runController [] dispatch rest st).fs = fsr
        ∧ ∀ p ∈ reg, (runController [] dispatch rest st).status p.1
            = .skipped) := by
  intro rest
  induction rest with
  | nil =>
    intro pre seen st hsplit hseen htopo hfs hran hsk
    rw [List.append_nil] at hsplit
    subst hsplit
    exact ⟨hran, hfs, hsk⟩
  | cons u rest' ih =>
    intro pre seen st hsplit hseen htopo hfs hran hsk
    rw [topoOK, Bool.and_eq_true] at htopo
    obtain ⟨htopo1, htopo2⟩ := htopo
    have hdseen : ∀ d ∈ u.2.deps, d ∈ seen := fun d hd =>
      of_decide_eq_true (List.all_eq_true.mp htopo1 d hd)
    have hu : u ∈ reg := by
      rw [hsplit]
      exact List.mem_append.mpr (Or.inr (List.mem_cons_self _ _))
    have hdepsOK : depsOK st.status u.2 = true := by
      unfold depsOK
      rw [List.all_eq_true]
      intro d hd
      have hdpre := (hseen d).mp (hdseen d hd)
      rw [stageNames, List.mem_map] at hdpre
      obtain ⟨p, hp, hpd⟩ := hdpre
      subst hpd
      rw [hsk p hp]
      rfl
    have hstale : isStale [] st.fs u.1 u.2 = false := by
      unfold isStale
      rw [hfs]
      simp [hupdAll u hu]
    have hstep : stepStage [] dispatch st u
        = { st with status := fun m => if m = u.1 then .skipped
            else st.status m } := by
      simp [stepStage, hdepsOK, hstale]
    have hsplit' : reg = (pre ++ [u]) ++ rest' := by
      rw [hsplit]
      simp
    have hpnames : stageNames (pre ++ [u]) = stageNames pre ++ [u.1] := by
      simp [stageNames]
    have hseen' : ∀ x, x ∈ u.1 :: seen ↔ x ∈ stageNames (pre ++ [u]) := by
      intro x
      rw [List.mem_cons, hseen x, hpnames, List.mem_append]
      simp [or_comm]
    rw [runController_cons, hstep]
    refine ih (pre ++ [u]) (u.1 :: seen) _ hsplit' hseen' htopo2 hfs hran ?_
    intro p hp
    rcases List.mem_append.mp hp with h | h
    · by_cases hpu : p.1 = u.1
      · simp [hpu]
      · simpa [hpu] using hsk p h
    · simp at h
      subst h
      simp

/-- C7, counterexample: with a single stage that declares no outputs (as
every stage of the shipped registry does), the stage is stale on every
invocation — the spec's own edge case — so the second of two back-to-back
runs with no external changes still takes a `PENDING → RUNNING` transition
and ends `SUCCEEDED`, not `SKIPPED`. -/
theorem C7_counterexample :
    (secondRun [("task1", ⟨"", [], [], []⟩)] [] (fun _ => true)
      ⟨fun _ => none, fun _ => none, 0⟩).ran = ["task1"]
    ∧ (secondRun [("task1", ⟨"", [], [], []⟩)] [] (fun _ => true)
      ⟨fun _ => none, fun _ => none, 0⟩).status "task1"
        = .succeeded := by
  exact ⟨rfl, rfl⟩

/-- C7, amended: for a registry in topological order with distinct names, an
empty force set, every stage declaring at least one output, per-stage output
isolation, inputs covered by dependency outputs (or external to the run), a
dispatcher that succeeds, and a starting clock beyond all existing file
times, running the controller twice with no changes in between produces
zero `PENDING → RUNNING` transitions on the second run and every stage ends
the second run in state `SKIPPED`. -/
theorem C7_amended (reg : Registry) (dispatch : String → Bool) (fs0 : FS)
    (hdisp : ∀ n, dispatch n = true)
    (hnodup : (stageNames reg).Nodup)
    (htopo : topoOK [] reg = true)
    (houts : ∀ p ∈ reg, p.2.outputs ≠ [])
    (hdisj : OutputsDisjoint reg)
    (hcov : InputsCovered reg)
    (hclock : ∀ f t, fs0.mtime f = some t → t < fs0.clock) :
    (secondRun reg [] dispatch fs0).ran = []
    ∧ ∀ p ∈ reg, (secondRun reg [] dispatch fs0).status p.1 = .skipped := by
  have h1 := run1_go dispatch hdisp hnodup hdisj hcov houts reg [] []
    (initState fs0) (List.nil_append reg).symm (by simp [stageNames]) htopo
    (by simp) (by simp) (by simp) hclock
  have h2 := run2_go dispatch (runController [] dispatch reg (initState fs0)).fs
    h1.2.1 reg [] [] (initState (runController [] dispatch reg (initState fs0)).fs)
    (List.nil_append reg).symm (by simp [stageNames]) htopo rfl rfl (by simp)
  exact ⟨h2.1, h2.2.2⟩

/-- Witness for C7: the amended statement instantiated at the spec's §8
linear chain `task1 → task2 → task3` over an empty filesystem with an
always-succeeding dispatcher. -/
theorem C7_witness :
    (secondRun quickstartChain [] (fun _ => true)
      ⟨fun _ => none, fun _ => none, 0⟩).ran = []
    ∧ ∀ p ∈ quickstartChain,
        (secondRun quickstartChain [] (fun _ => true)
          ⟨fun _ => none, fun _ => none, 0⟩).status p.1 = .skipped :=
  C7_amended quickstartChain (fun _ => true)
    ⟨fun _ => none, fun _ => none, 0⟩ (fun _ => rfl) (by decide) (by decide)
    (by decide) (by decide) (by decide) (fun _ _ h => Option.noConfusion h)

end WitsGWAS
